import Mathlib

/- Shallow embedding of the geometry-document rewriter
   (src/Survey_to_RAS_Geom.py).

   Modelling conventions:
   * A document line is a `List Char` that includes its trailing newline
     character, mirroring Python `readlines`.
   * The output sink is the ordered list of strings passed to
     `fout.write`, one list element per write call; the produced byte
     stream is the flattening of that list.
   * Survey MEAS/ELEV values are modelled in thousandths as `Int`, so
     that the `'{:8.3f}'.format` fixed encoding is exact (the claims are
     all stated at 3-decimal-place precision).
   * Python's bare `next` statements in the loop body are no-ops and are
     modelled as such (they do not skip the iteration).
   * `farray[num+1]` on an out-of-range index is a Python `IndexError`;
     the run is therefore an `Except`, whose error value carries the
     chunks already written to the output sink at the moment of failure. -/

/-- A row of the linear-referencing survey table (one CSV record). -/
structure SurveyPoint where
  river : List Char
  reach : List Char
  rs : List Char
  meas : Int
  elev : Int
deriving DecidableEq

/-- A row of `df_grouped`: a distinct (River, Reach, RiverStation) key
together with the number of survey points carrying that key. -/
structure GroupRow where
  river : List Char
  reach : List Char
  rs : List Char
  numPoints : Nat
deriving DecidableEq

/-- The decimal digit character for `n < 10` (`chr(48+n)`). -/
def digCh (n : Nat) : Char := Char.ofNat (48 + n)

/-- Boolean test for an ASCII decimal digit. -/
def isDig (c : Char) : Bool := decide (48 ≤ c.toNat ∧ c.toNat ≤ 57)

/-- Decimal rendering worker: structural recursion on a fuel bound that
dominates the number of digits. -/
def natToDigitsAux : Nat → Nat → List Char
  | 0, _ => []
  | fuel + 1, n =>
    if n < 10 then [digCh n]
    else natToDigitsAux fuel (n / 10) ++ [digCh (n % 10)]

/-- Decimal rendering of a natural number, most significant digit first,
as produced by Python `str`/`format`. -/
def natToDigits (n : Nat) : List Char := natToDigitsAux (n + 1) n

/-- Three zero-padded decimal digits for `v < 1000`: the fractional part
emitted by `'{:8.3f}'.format`. -/
def fmt3frac (v : Nat) : List Char :=
  if v < 10 then '0' :: '0' :: natToDigits v
  else if v < 100 then '0' :: natToDigits v
  else natToDigits v

/-- The `'{:8.3f}'.format` encoding of a value given in thousandths:
sign, integer digits, a point, three fractional digits, right-justified
with spaces to a minimum width of 8 characters. -/
def fmt83 (m : Int) : List Char :=
  let a := m.natAbs
  let core := (if m < 0 then ['-'] else []) ++
    natToDigits (a / 1000) ++ '.' :: fmt3frac (a % 1000)
  List.replicate (8 - core.length) ' ' ++ core

/-- Greedily consume leading decimal digits, accumulating their value. -/
def readNatAux : List Char → Nat → Nat × List Char
  | [], acc => (acc, [])
  | c :: cs, acc =>
    if isDig c = true then readNatAux cs (acc * 10 + (c.toNat - 48))
    else (acc, c :: cs)

/-- Drop leading space characters. -/
def skipSpaces : List Char → List Char
  | [] => []
  | c :: cs => if c = ' ' then skipSpaces cs else c :: cs

/-- Parse the digits-point-digits body of a fixed-point decimal; the
result is in thousandths.  Used by `parse83`. -/
def parseBody (neg : Bool) (l : List Char) : Option Int :=
  match l with
  | [] => none
  | c :: cs =>
    if isDig c = true then
      let r1 := readNatAux (c :: cs) 0
      match r1.2 with
      | [] => none
      | c2 :: fr =>
        if c2 = '.' then
          match fr with
          | [] => none
          | d :: ds =>
            if isDig d = true then
              let r2 := readNatAux (d :: ds) 0
              if r2.2 = [] then
                some (if neg then -(((r1.1 * 1000 + r2.1 : Nat)) : Int)
                      else ((r1.1 * 1000 + r2.1 : Nat) : Int))
              else none
            else none
        else none
    else none

/-- Decode a `'{:8.3f}'`-formatted field back to a value in thousandths:
skip the space padding, read an optional sign, integer digits, the
point, and the fractional digits. -/
def parse83 (l : List Char) : Option Int :=
  match skipSpaces l with
  | [] => none
  | c :: cs => if c = '-' then parseBody true cs else parseBody false (c :: cs)

/-- Decode a 16-character point pair (8.3f station, 8.3f elevation). -/
def parsePair16 (l : List Char) : Option Int × Option Int :=
  (parse83 (l.take 8), parse83 ((l.drop 8).take 8))

/-- Code-point order on character lists (the order pandas uses on string
columns), as a Boolean less-or-equal. -/
def leChars : List Char → List Char → Bool
  | [], _ => true
  | _ :: _, [] => false
  | a :: as, b :: bs =>
    if a.toNat < b.toNat then true
    else if b.toNat < a.toNat then false
    else leChars as bs

/-- One lexicographic level: compare a key component, falling through to
`rest` on equality. -/
def lexLe (ka kb : List Char) (rest : Bool) : Bool :=
  if ka = kb then rest else leChars ka kb

/-- The `sort_values(['River','Reach','RiverStation','MEAS'])` order. -/
def lePoint (p q : SurveyPoint) : Bool :=
  lexLe p.river q.river (lexLe p.reach q.reach
    (lexLe p.rs q.rs (decide (p.meas ≤ q.meas))))

/-- `df_sort`: the survey table sorted ascending by River, Reach,
RiverStation, MEAS. -/
def sortPoints (df : List SurveyPoint) : List SurveyPoint :=
  List.insertionSort (fun p q => lePoint p q = true) df

/-- The (River, Reach, RiverStation) key of a survey row. -/
def keyTriple (p : SurveyPoint) : List Char × List Char × List Char :=
  (p.river, p.reach, p.rs)

/-- Boolean key-match of a survey row against a grouped row, as in
`df_sort[(df_sort.River == rs.River) & ...]`. -/
def keyP (r : GroupRow) (p : SurveyPoint) : Bool :=
  p.river == r.river && p.reach == r.reach && p.rs == r.rs

/-- `df_grouped`: the distinct keys (in sorted order, as pandas
`groupby` yields them) with the count of survey rows per key. -/
def groupedOf (df : List SurveyPoint) : List GroupRow :=
  ((sortPoints df).map keyTriple).dedup.map fun k =>
    { river := k.1, reach := k.2.1, rs := k.2.2,
      numPoints := df.countP (keyP (GroupRow.mk k.1 k.2.1 k.2.2 0)) }

/-- Left-justified space padding to a minimum width, Python `'{:<w}'`. -/
def padRight (s : List Char) (w : Nat) : List Char :=
  s ++ List.replicate (w - s.length) ' '

/-- Python's `pat in line` substring test: does `pat` occur at the head? -/
def leadMatch : List Char → List Char → Bool
  | [], _ => true
  | _ :: _, [] => false
  | a :: as, b :: bs => a == b && leadMatch as bs

/-- Python's `pat in line` substring test: does `pat` occur anywhere? -/
def containsSub (pat : List Char) : List Char → Bool
  | [] => leadMatch pat []
  | c :: t => leadMatch pat (c :: t) || containsSub pat t

/-- Python `s[-k:]`: the last `k` characters (the whole string when it
is shorter than `k`). -/
def takeLast (k : Nat) (l : List Char) : List Char :=
  l.drop (l.length - k)

/-- Python list indexing with negative-index wrap-around; `none` models
an `IndexError`. -/
def pyIdx (l : List (List Char)) (i : Int) : Option (List Char) :=
  if 0 ≤ i then l.get? i.toNat
  else if i.natAbs ≤ l.length then l.get? (l.length - i.natAbs) else none

/-- Remove every newline character (used to read the point pairs back
out of the emitted table chunks). -/
def stripNL (l : List Char) : List Char :=
  l.filter fun c => c != '\n'

/-- The marker substrings the loop searches each line for. -/
def riverReachMark : List Char := "River Reach=".data

/-- Cross-section announcement marker. -/
def typeRMMark : List Char := "Type RM".data

/-- Point-table header marker. -/
def staElevMark : List Char := "#Sta/Elev=".data

/-- Point-table terminator marker. -/
def mannMark : List Char := "#Mann=".data

/-- Suffix appended to the (truncated) title line, `"_WithSurvey\n"`. -/
def titleSuffix : List Char := "_WithSurvey\n".data

/-- The rewritten point-table header, `'#Sta/Elev= {}\n'.format(n)`. -/
def staElevHeader (n : Nat) : List Char :=
  "#Sta/Elev= ".data ++ natToDigits n ++ ['\n']

/-- The 16-character encoding of one survey point,
`'{:8.3f}'.format(pt.MEAS) + '{:8.3f}'.format(pt.ELEV)`. -/
def pairFmt (p : SurveyPoint) : List Char :=
  fmt83 p.meas ++ fmt83 p.elev

/-- The search string `"River Reach=" + '{:<16},'.format(River) + Reach`. -/
def rivRchString (g : GroupRow) : List Char :=
  riverReachMark ++ padRight g.river 16 ++ [','] ++ g.reach

/-- The search string `',{:<8}'.format(RiverStation)`. -/
def rsString (g : GroupRow) : List Char :=
  ',' :: padRight g.rs 8

/-- The `for row in df_grouped.itertuples()` search on a `River Reach=`
line: on a match, bind `row` and set the flag and break; otherwise the
loop runs to exhaustion leaving `row` bound to the last row examined and
the flag unchanged. -/
def searchRivRch : List GroupRow → List Char → Option GroupRow → Bool →
    Option GroupRow × Bool
  | [], _, rowAcc, found => (rowAcc, found)
  | g :: rest, line, _, found =>
    if containsSub (rivRchString g) line = true then (some g, true)
    else searchRivRch rest line (some g) found

/-- The `for rs in df_riv_rch.itertuples()` search on a `Type RM` line,
with the same last-binding behaviour as `searchRivRch`. -/
def searchRS : List GroupRow → List Char → Option GroupRow → Bool →
    Option GroupRow × Bool
  | [], _, acc, found => (acc, found)
  | g :: rest, line, _, found =>
    if containsSub (rsString g) line = true then (some g, true)
    else searchRS rest line (some g) found

/-- The write-out of `pt_array` (source lines 95-115): `n` is the
1-based `enumerate` index, `total` is `len(pt_array)`, the third
argument is the running `pt_string`.  A chunk of exactly 80 characters
is written with an appended newline and the string is reset; a shorter
string is carried while points remain; otherwise the string is written
raw (without resetting it, exactly as the source does). -/
def flushAux (total : Nat) : List (List Char) → Nat → List Char → List (List Char)
  | [], _, _ => []
  | p :: rest, n, ptString =>
    let s := ptString ++ p
    if s.length = 80 then (s ++ ['\n']) :: flushAux total rest (n + 1) []
    else if s.length < 80 ∧ n < total then flushAux total rest (n + 1) s
    else s :: flushAux total rest (n + 1) s

/-- All chunks written for one point array. -/
def flushPts (arr : List (List Char)) : List (List Char) :=
  flushAux arr.length arr 1 []

/-- Spec-side closed form of `flushAux` for well-shaped arrays: pack the
pieces left to right, emitting an 80-character line (plus newline) each
time the running string reaches exactly 80 characters, and one final raw
chunk holding the remainder together with the trailing piece `z`.  Used
only to state and prove the characterisation lemmas. -/
def packRows : List Char → List (List Char) → List Char → List (List Char)
  | ps, [], z => [ps ++ z]
  | ps, m :: mids, z =>
    if (ps ++ m).length = 80 then (ps ++ m ++ ['\n']) :: packRows [] mids z
    else packRows (ps ++ m) mids z

/-- The mutable state of the rewriting loop: the three found-flags, the
lingering `row` and `rs` loop-variable bindings, `pt_array`, and the
chunks written to `fout` so far. -/
structure RWState where
  rivRchFound : Bool
  rsFound : Bool
  staElevFound : Bool
  row : Option GroupRow
  rsRow : Option GroupRow
  ptArray : List (List Char)
  out : List (List Char)
deriving DecidableEq

/-- Initial loop state (all flags clear, nothing written). -/
def initState : RWState :=
  { rivRchFound := false, rsFound := false, staElevFound := false,
    row := none, rsRow := none, ptArray := [], out := [] }

/-- The body of the `for num, line in enumerate(farray)` loop after the
title write (source lines 80-196).  Branches, in source order: the
terminator flush, the `River Reach=` search, the `Type RM` search, and
the `#Sta/Elev=` header rewrite with its `elif` default copy.  The
`farray[num+1]` lookup raises (returns `Except.error`) when out of
range, carrying the chunks written so far, header included. -/
def stepCore (grouped : List GroupRow) (dfSort : List SurveyPoint)
    (farray : List (List Char)) (num : Nat) (line : List Char)
    (st : RWState) : Except (List (List Char)) RWState :=
  let st :=
    if st.staElevFound = true ∧ containsSub mannMark line = true then
      let lastLine := (pyIdx farray ((num : Int) - 1)).getD []
      let ptArr := st.ptArray ++ [takeLast 17 lastLine]
      { st with out := st.out ++ flushPts ptArr, ptArray := ptArr,
                rsFound := false, staElevFound := false }
    else st
  let st :=
    if containsSub riverReachMark line = true then
      let sr := searchRivRch grouped line st.row st.rivRchFound
      { st with row := sr.1, rivRchFound := sr.2 }
    else st
  let st :=
    if st.rivRchFound = true ∧ containsSub typeRMMark line = true then
      match st.row with
      | some r =>
        let dfRivRch := grouped.filter fun g =>
          g.river == r.river && g.reach == r.reach
        let sr := searchRS dfRivRch line st.rsRow st.rsFound
        { st with rsRow := sr.1, rsFound := sr.2 }
      | none => st
    else st
  if st.rivRchFound = true ∧ st.rsFound = true ∧
      containsSub staElevMark line = true then
    match st.rsRow with
    | some r =>
      let out1 := st.out ++ [staElevHeader (r.numPoints + 2)]
      let pts := (dfSort.filter (keyP r)).map pairFmt
      match pyIdx farray ((num : Int) + 1) with
      | some firstLine =>
        Except.ok { st with staElevFound := true, out := out1,
                            ptArray := firstLine.take 16 :: pts }
      | none => Except.error out1
    | none => Except.ok st
  else if num ≠ 0 ∧ st.staElevFound = false then
    Except.ok { st with out := st.out ++ [line] }
  else
    Except.ok st

/-- One full iteration of the loop: the title write for line 0 (source
lines 77-78) followed by `stepCore`. -/
def stepLine (grouped : List GroupRow) (dfSort : List SurveyPoint)
    (farray : List (List Char)) (num : Nat) (line : List Char)
    (st : RWState) : Except (List (List Char)) RWState :=
  stepCore grouped dfSort farray num line
    (if num = 0 then { st with out := st.out ++ [line.dropLast ++ titleSuffix] }
     else st)

/-- Run the loop over the remaining lines, threading the state. -/
def runLoop (grouped : List GroupRow) (dfSort : List SurveyPoint)
    (farray : List (List Char)) : Nat → List (List Char) → RWState →
    Except (List (List Char)) RWState
  | _, [], st => Except.ok st
  | num, line :: rest, st =>
    match stepLine grouped dfSort farray num line st with
    | Except.ok st' => runLoop grouped dfSort farray (num + 1) rest st'
    | Except.error e => Except.error e

/-- The whole rewrite: sort and group the survey table, then run the
loop over the document from line 0.  On success the value is the list
of chunks written; on failure it is the list of chunks written before
the failure. -/
def rewriteGeom (df : List SurveyPoint) (farray : List (List Char)) :
    Except (List (List Char)) (List (List Char)) :=
  match runLoop (groupedOf df) (sortPoints df) farray 0 farray initState with
  | Except.ok st => Except.ok st.out
  | Except.error e => Except.error e

/-- The chunks present in the output sink whether the run succeeded or
failed (on failure, the partial output). -/
def resultOut : Except (List (List Char)) (List (List Char)) → List (List Char)
  | Except.ok o => o
  | Except.error e => e

/-- The output chunks of a loop result (state out on success, partial
output on failure). -/
def outOf : Except (List (List Char)) RWState → List (List Char)
  | Except.ok st => st.out
  | Except.error e => e

/- Concrete fixtures used by the counterexamples and witnesses. -/

/-- A one-point survey table with key (R, X, 100); MEAS 2.000, ELEV
9.000 (stored in thousandths). -/
def exDf : List SurveyPoint :=
  [{ river := "R".data, reach := "X".data, rs := "100".data,
     meas := 2000, elev := 9000 }]

/-- The grouped row of `exDf`. -/
def exRow : GroupRow :=
  { river := "R".data, reach := "X".data, rs := "100".data, numPoints := 1 }

/-- A document whose only cross-section sits under reach `(Q, Y)` — a
key absent from `exDf` — after an earlier matching reach line for
`(R, X)`. -/
def exDoc1 : List (List Char) :=
  [ "GEOM T\n".data,
    "River Reach=R               ,X\n".data,
    "River Reach=Q               ,Y\n".data,
    "Type RM Length L Ch R = 1 ,100     ,1,1,1\n".data,
    "#Sta/Elev= 3\n".data,
    "   0.000 100.000   5.000  98.000\n".data,
    "  10.000  95.000\n".data,
    "#Mann= 3 , 0 , 0\n".data,
    "END\n".data ]

/-- The chunks the rewriter writes for `exDoc1` with table `exDf`. -/
def exOut1 : List (List Char) :=
  [ "GEOM T_WithSurvey\n".data,
    "River Reach=R               ,X\n".data,
    "River Reach=Q               ,Y\n".data,
    "Type RM Length L Ch R = 1 ,100     ,1,1,1\n".data,
    "#Sta/Elev= 3\n".data,
    "   0.000 100.000   2.000   9.000  10.000  95.000\n".data,
    "#Mann= 3 , 0 , 0\n".data,
    "END\n".data ]

/-- A matched document whose first anchor line (`"ab"`) is shorter than
one 16-character point pair. -/
def exDoc4 : List (List Char) :=
  [ "GEOM T\n".data,
    "River Reach=R               ,X\n".data,
    "Type RM Length L Ch R = 1 ,100     ,1,1,1\n".data,
    "#Sta/Elev= 3\n".data,
    "ab\n".data,
    "  10.000  95.000\n".data,
    "#Mann= 3 , 0 , 0\n".data ]

/-- The chunks the rewriter writes for `exDoc4` with table `exDf`. -/
def exOut4 : List (List Char) :=
  [ "GEOM T_WithSurvey\n".data,
    "River Reach=R               ,X\n".data,
    "Type RM Length L Ch R = 1 ,100     ,1,1,1\n".data,
    "#Sta/Elev= 3\n".data,
    "ab\n   2.000   9.000  10.000  95.000\n".data,
    "#Mann= 3 , 0 , 0\n".data ]

/-- A matched document ending at the point-table header line, so the
one-line lookahead for the first anchor is out of range. -/
def exDoc5 : List (List Char) :=
  [ "GEOM T\n".data,
    "River Reach=R               ,X\n".data,
    "Type RM Length L Ch R = 1 ,100     ,1,1,1\n".data,
    "#Sta/Elev= 3\n".data ]

/-- The chunks already written when the rewrite of `exDoc5` fails. -/
def exErr5 : List (List Char) :=
  [ "GEOM T_WithSurvey\n".data,
    "River Reach=R               ,X\n".data,
    "Type RM Length L Ch R = 1 ,100     ,1,1,1\n".data,
    "#Sta/Elev= 3\n".data ]

/-- A loop state in which reach and station have just been matched
(row and rs bound to `exRow`), as found on reaching a point-table
header line. -/
def exStHeader : RWState :=
  { rivRchFound := true, rsFound := true, staElevFound := false,
    row := some exRow, rsRow := some exRow, ptArray := [], out := [] }

/-- The point-table header line of the fixtures. -/
def exHeaderLine : List Char := "#Sta/Elev= 3\n".data

/-- A three-line array placing the header at index 1 with its anchor
line following. -/
def exDocHeader : List (List Char) :=
  [ "x\n".data, exHeaderLine,
    "   0.000 100.000   5.000  98.000\n".data ]

/-- A loop state in the middle of a matched table: the two accumulated
pairs are the captured first anchor and the one survey pair. -/
def exStFlush : RWState :=
  { rivRchFound := true, rsFound := true, staElevFound := true,
    row := some exRow, rsRow := some exRow,
    ptArray := ["   0.000 100.000".data, "   2.000   9.000".data],
    out := ["#Sta/Elev= 3\n".data] }

/-- The terminator line of the fixtures. -/
def exMannLine : List Char := "#Mann= 3 , 0 , 0\n".data

/-- A two-line array placing the terminator at index 1 with the last
table line before it. -/
def exDocFlush : List (List Char) :=
  [ "  10.000  95.000\n".data, exMannLine ]

/-- A three-line array placing the header at index 1 but whose anchor
line `"ab"` is shorter than a 16-character pair. -/
def exDocShortAnchor : List (List Char) :=
  [ "x\n".data, exHeaderLine, "ab\n".data ]

/-- A two-line array placing the terminator at index 1 with a preceding
line shorter than 17 characters. -/
def exDocShortFlush : List (List Char) :=
  [ "short\n".data, exMannLine ]

/-- A two-line array ending at the header line, so the lookahead for
the first anchor is out of range. -/
def exDocNoNext : List (List Char) :=
  [ "x\n".data, exHeaderLine ]

/- Lemmas about digits, decimal rendering and the 8.3f round trip. -/

theorem charToNat_inj {a b : Char} (h : a.toNat = b.toNat) : a = b := by
  cases a; cases b
  simp [Char.toNat] at h
  congr 1
  exact UInt32.ext_iff.mpr (by simpa [UInt32.toNat] using h)

theorem digCh_toNat {d : Nat} (h : d < 10) : (digCh d).toNat = 48 + d := by
  interval_cases d <;> decide

theorem isDig_digCh {d : Nat} (h : d < 10) : isDig (digCh d) = true := by
  interval_cases d <;> decide

theorem isDig_not_space {c : Char} (h : isDig c = true) : ¬ c = ' ' := by
  intro he; subst he; exact absurd h (by decide)

theorem isDig_not_dash {c : Char} (h : isDig c = true) : ¬ c = '-' := by
  intro he; subst he; exact absurd h (by decide)

theorem natToDigitsAux_congr : ∀ (n f g : Nat), n < f → n < g →
    natToDigitsAux f n = natToDigitsAux g n := by
  intro n
  induction n using Nat.strong_induction_on with
  | _ n ih =>
    intro f g hf hg
    cases f with
    | zero => omega
    | succ f =>
      cases g with
      | zero => omega
      | succ g =>
        simp only [natToDigitsAux]
        split
        · rfl
        · rw [ih (n / 10) (by omega) f g (by omega) (by omega)]

theorem natToDigits_lt {n : Nat} (h : n < 10) : natToDigits n = [digCh n] := by
  unfold natToDigits natToDigitsAux
  rw [if_pos h]

theorem natToDigits_ge {n : Nat} (h : 10 ≤ n) :
    natToDigits n = natToDigits (n / 10) ++ [digCh (n % 10)] := by
  unfold natToDigits
  show natToDigitsAux (n + 1) n = _
  conv_lhs => rw [natToDigitsAux]
  rw [if_neg (by omega)]
  rw [natToDigitsAux_congr (n / 10) n (n / 10 + 1) (by omega) (by omega)]

theorem natToDigits_ne_nil (n : Nat) : natToDigits n ≠ [] := by
  by_cases h : n < 10
  · rw [natToDigits_lt h]; simp
  · rw [natToDigits_ge (by omega)]; simp

theorem natToDigits_digits (n : Nat) : ∀ c ∈ natToDigits n, isDig c = true := by
  induction n using Nat.strong_induction_on with
  | _ n ih =>
    by_cases h : n < 10
    · rw [natToDigits_lt h]
      intro c hc
      simp at hc; subst hc
      exact isDig_digCh h
    · rw [natToDigits_ge (by omega)]
      intro c hc
      rcases List.mem_append.mp hc with h1 | h1
      · exact ih (n / 10) (Nat.div_lt_self (by omega) (by omega)) c h1
      · simp at h1; subst h1
        exact isDig_digCh (Nat.mod_lt _ (by omega))

theorem readNatAux_digits (n : Nat) : ∀ (acc : Nat) (rest : List Char),
    readNatAux (natToDigits n ++ rest) acc =
      readNatAux rest (acc * 10 ^ (natToDigits n).length + n) := by
  induction n using Nat.strong_induction_on with
  | _ n ih =>
    intro acc rest
    by_cases h : n < 10
    · rw [natToDigits_lt h]
      show readNatAux (digCh n :: rest) acc = _
      rw [readNatAux, if_pos (isDig_digCh h), digCh_toNat h]
      congr 1
      simp
    · rw [natToDigits_ge (by omega), List.append_assoc, List.singleton_append,
          ih (n / 10) (Nat.div_lt_self (by omega) (by omega))]
      rw [readNatAux, if_pos (isDig_digCh (Nat.mod_lt _ (by omega))),
          digCh_toNat (Nat.mod_lt _ (by omega))]
      congr 1
      rw [List.length_append]
      simp [pow_succ]
      have hdm : n / 10 * 10 + n % 10 = n := by omega
      rw [Nat.add_mul, Nat.mul_assoc, Nat.add_assoc, hdm]

theorem fmt3frac_digits (v : Nat) : ∀ c ∈ fmt3frac v, isDig c = true := by
  intro c hc
  unfold fmt3frac at hc
  split at hc
  · rcases List.mem_cons.mp hc with h | hc2
    · subst h; decide
    · rcases List.mem_cons.mp hc2 with h | h3
      · subst h; decide
      · exact natToDigits_digits v c h3
  · split at hc
    · rcases List.mem_cons.mp hc with h | h2
      · subst h; decide
      · exact natToDigits_digits v c h2
    · exact natToDigits_digits v c hc

theorem fmt3frac_ne_nil (v : Nat) : fmt3frac v ≠ [] := by
  unfold fmt3frac
  split
  · simp
  · split
    · simp
    · exact natToDigits_ne_nil v

theorem readNatAux_zero : ∀ (l : List Char) (acc : Nat),
    readNatAux ('0' :: l) acc = readNatAux l (acc * 10) := by
  intro l acc
  rw [readNatAux, if_pos (by decide)]
  have h48 : '0'.toNat - 48 = 0 := by decide
  rw [h48, Nat.add_zero]

theorem readNatAux_fmt3frac {v : Nat} (_h : v < 1000) :
    readNatAux (fmt3frac v) 0 = (v, []) := by
  have hbase : readNatAux (natToDigits v) 0 = (v, []) := by
    have hd := readNatAux_digits v 0 []
    rw [List.append_nil] at hd
    rw [hd, readNatAux]
    norm_num
  unfold fmt3frac
  split
  · rw [readNatAux_zero, readNatAux_zero]
    norm_num
    exact hbase
  · split
    · rw [readNatAux_zero]
      norm_num
      exact hbase
    · exact hbase

theorem skipSpaces_replicate (k : Nat) (l : List Char) :
    skipSpaces (List.replicate k ' ' ++ l) = skipSpaces l := by
  induction k with
  | zero => simp
  | succ k ih =>
    rw [List.replicate_succ, List.cons_append, skipSpaces, if_pos rfl, ih]

theorem skipSpaces_cons {c : Char} (h : ¬ c = ' ') (l : List Char) :
    skipSpaces (c :: l) = c :: l := by
  rw [skipSpaces, if_neg h]

theorem parse83_dash {l cs : List Char}
    (h : skipSpaces l = '-' :: cs) : parse83 l = parseBody true cs := by
  unfold parse83
  rw [h]
  simp

theorem parse83_nodash {l : List Char} {c : Char} {cs : List Char}
    (h : skipSpaces l = c :: cs) (hne : ¬ c = '-') :
    parse83 l = parseBody false (c :: cs) := by
  unfold parse83
  rw [h]
  simp [hne]

/-- The 8.3f fixed-width encode/decode round trip is exact on
thousandths. -/
theorem parse83_fmt83 (m : Int) : parse83 (fmt83 m) = some m := by
  have hq : m.natAbs / 1000 * 1000 + m.natAbs % 1000 = m.natAbs := by omega
  have hfr : m.natAbs % 1000 < 1000 := by omega
  obtain ⟨d0, ds, hds⟩ :=
    List.exists_cons_of_ne_nil (natToDigits_ne_nil (m.natAbs / 1000))
  have hd0 : isDig d0 = true := by
    apply natToDigits_digits (m.natAbs / 1000)
    rw [hds]; exact List.mem_cons_self _ _
  obtain ⟨f0, fs, hfs⟩ :=
    List.exists_cons_of_ne_nil (fmt3frac_ne_nil (m.natAbs % 1000))
  have hf0 : isDig f0 = true := by
    apply fmt3frac_digits (m.natAbs % 1000)
    rw [hfs]; exact List.mem_cons_self _ _
  have hr1 : readNatAux (natToDigits (m.natAbs / 1000) ++
      '.' :: fmt3frac (m.natAbs % 1000)) 0 =
      (m.natAbs / 1000, '.' :: fmt3frac (m.natAbs % 1000)) := by
    rw [readNatAux_digits, readNatAux, if_neg (by decide)]
    norm_num
  have hcore : ∀ neg : Bool, parseBody neg (natToDigits (m.natAbs / 1000) ++
      '.' :: fmt3frac (m.natAbs % 1000)) =
      some (if neg = true then -((m.natAbs : Nat) : Int)
            else ((m.natAbs : Nat) : Int)) := by
    intro neg
    rw [hds, List.cons_append]
    simp only [parseBody]
    rw [if_pos hd0, ← List.cons_append, ← hds]
    simp only [hr1]
    rw [hfs]
    simp only [if_true, if_pos hf0]
    rw [← hfs, readNatAux_fmt3frac hfr]
    simp only [if_true]
    rw [hq]
  have hskip : skipSpaces (fmt83 m) = (if m < 0 then ['-'] else []) ++
      (natToDigits (m.natAbs / 1000) ++ '.' :: fmt3frac (m.natAbs % 1000)) := by
    unfold fmt83
    simp only []
    rw [skipSpaces_replicate]
    by_cases hm : m < 0
    · simp only [if_pos hm, List.singleton_append]
      exact skipSpaces_cons (by decide) _
    · simp only [if_neg hm, List.nil_append]
      rw [hds]
      exact skipSpaces_cons (isDig_not_space hd0) _
  by_cases hm : m < 0
  · have hsk1 : skipSpaces (fmt83 m) = '-' :: (natToDigits (m.natAbs / 1000) ++
        '.' :: fmt3frac (m.natAbs % 1000)) := by
      rw [hskip, if_pos hm, List.singleton_append]
    rw [parse83_dash hsk1, hcore true]
    simp only [if_true]
    congr 1
    omega
  · have hsk2 : skipSpaces (fmt83 m) = d0 :: (ds ++
        '.' :: fmt3frac (m.natAbs % 1000)) := by
      rw [hskip, if_neg hm, List.nil_append, hds, List.cons_append]
    rw [parse83_nodash hsk2 (isDig_not_dash hd0), ← List.cons_append, ← hds,
        hcore false]
    simp only [Bool.false_eq_true, if_false]
    congr 1
    omega

/- Lemmas about the sort order and the grouped table. -/

theorem leChars_total : ∀ a b : List Char, leChars a b = true ∨ leChars b a = true := by
  intro a
  induction a with
  | nil => intro b; left; rfl
  | cons x xs ih =>
    intro b
    cases b with
    | nil => right; rfl
    | cons y ys =>
      rcases Nat.lt_trichotomy x.toNat y.toNat with h | h | h
      · left; simp [leChars, h]
      · rcases ih ys with h2 | h2
        · left
          simp [leChars, h, Nat.lt_irrefl, h2]
        · right
          simp [leChars, h.symm, Nat.lt_irrefl, h2]
      · right; simp [leChars, h]

theorem leChars_trans : ∀ a b c : List Char,
    leChars a b = true → leChars b c = true → leChars a c = true := by
  intro a
  induction a with
  | nil => intro b c _ _; rfl
  | cons x xs ih =>
    intro b c h1 h2
    cases b with
    | nil => simp [leChars] at h1
    | cons y ys =>
      cases c with
      | nil => simp [leChars] at h2
      | cons z zs =>
        simp only [leChars] at h1 h2 ⊢
        rcases Nat.lt_trichotomy x.toNat y.toNat with hxy | hxy | hxy
        · rcases Nat.lt_trichotomy y.toNat z.toNat with hyz | hyz | hyz
          · simp [show x.toNat < z.toNat by omega]
          · simp [show x.toNat < z.toNat by omega]
          · simp [show ¬ y.toNat < z.toNat by omega, hyz] at h2
        · rcases Nat.lt_trichotomy y.toNat z.toNat with hyz | hyz | hyz
          · simp [show x.toNat < z.toNat by omega]
          · simp only [show ¬ x.toNat < y.toNat by omega,
              show ¬ y.toNat < x.toNat by omega, if_neg, ite_self,
              if_false] at h1
            simp only [show ¬ y.toNat < z.toNat by omega,
              show ¬ z.toNat < y.toNat by omega, if_neg, ite_self,
              if_false] at h2
            simp [show ¬ x.toNat < z.toNat by omega,
              show ¬ z.toNat < x.toNat by omega, ih ys zs h1 h2]
          · simp [show ¬ y.toNat < z.toNat by omega, hyz] at h2
        · simp [show ¬ x.toNat < y.toNat by omega, hxy] at h1

theorem leChars_antisymm : ∀ a b : List Char,
    leChars a b = true → leChars b a = true → a = b := by
  intro a
  induction a with
  | nil =>
    intro b h1 h2
    cases b with
    | nil => rfl
    | cons y ys => simp [leChars] at h2
  | cons x xs ih =>
    intro b h1 h2
    cases b with
    | nil => simp [leChars] at h1
    | cons y ys =>
      rcases Nat.lt_trichotomy x.toNat y.toNat with h | h | h
      · simp [leChars, show ¬ y.toNat < x.toNat by omega, h] at h2
      · have hxy : x = y := charToNat_inj h
        subst hxy
        simp only [leChars, Nat.lt_irrefl, if_false, ite_self] at h1 h2
        rw [ih ys h1 h2]
      · simp [leChars, show ¬ x.toNat < y.toNat by omega, h] at h1

theorem lexLe_total {a b : List Char} {r1 r2 : Bool} (h : r1 = true ∨ r2 = true) :
    lexLe a b r1 = true ∨ lexLe b a r2 = true := by
  by_cases hab : a = b
  · subst hab
    simpa [lexLe] using h
  · have hba : ¬ b = a := fun he => hab he.symm
    simp only [lexLe, if_neg hab, if_neg hba]
    exact leChars_total a b

theorem lexLe_trans {a b c : List Char} {r1 r2 r3 : Bool}
    (hr : r1 = true → r2 = true → r3 = true)
    (h1 : lexLe a b r1 = true) (h2 : lexLe b c r2 = true) :
    lexLe a c r3 = true := by
  by_cases hab : a = b
  · subst hab
    by_cases hbc : a = c
    · subst hbc
      simp only [lexLe, if_pos rfl] at h1 h2 ⊢
      exact hr h1 h2
    · simp only [lexLe, if_pos rfl, if_neg hbc] at h1 h2 ⊢
      exact h2
  · by_cases hbc : b = c
    · subst hbc
      simp only [lexLe, if_pos rfl, if_neg hab] at h1 h2 ⊢
      exact h1
    · simp only [lexLe, if_neg hab, if_neg hbc] at h1 h2
      by_cases hac : a = c
      · subst hac
        exact absurd (leChars_antisymm a b h1 h2) hab
      · simp only [lexLe, if_neg hac]
        exact leChars_trans a b c h1 h2

theorem lexLe_eq {a : List Char} {r : Bool} : lexLe a a r = r := by
  simp [lexLe]

theorem keyP_fields {r : GroupRow} {p : SurveyPoint} (h : keyP r p = true) :
    p.river = r.river ∧ p.reach = r.reach ∧ p.rs = r.rs := by
  simp only [keyP, Bool.and_eq_true, beq_iff_eq] at h
  exact ⟨h.1.1, h.1.2, h.2⟩

theorem lePoint_meas {r : GroupRow} {p q : SurveyPoint}
    (hp : keyP r p = true) (hq : keyP r q = true)
    (h : lePoint p q = true) : p.meas ≤ q.meas := by
  obtain ⟨hp1, hp2, hp3⟩ := keyP_fields hp
  obtain ⟨hq1, hq2, hq3⟩ := keyP_fields hq
  unfold lePoint at h
  rw [hp1, ← hq1, lexLe_eq, hp2, ← hq2, lexLe_eq, hp3, ← hq3, lexLe_eq] at h
  exact of_decide_eq_true h

/-- The (MEAS-ascending) order inside one key group of `df_sort`. -/
theorem sortPoints_group_sorted (df : List SurveyPoint) (r : GroupRow) :
    List.Pairwise (fun p q : SurveyPoint => p.meas ≤ q.meas)
      ((sortPoints df).filter (keyP r)) := by
  haveI instTr : IsTrans SurveyPoint (fun p q => lePoint p q = true) := ⟨by
    intro p q s h1 h2
    unfold lePoint at h1 h2 ⊢
    refine lexLe_trans (fun a1 b1 => ?_) h1 h2
    refine lexLe_trans (fun a2 b2 => ?_) a1 b1
    refine lexLe_trans (fun a3 b3 => ?_) a2 b2
    exact decide_eq_true (le_trans (of_decide_eq_true a3) (of_decide_eq_true b3))⟩
  haveI instTo : IsTotal SurveyPoint (fun p q => lePoint p q = true) := ⟨by
    intro p q
    unfold lePoint
    refine lexLe_total (lexLe_total (lexLe_total ?_))
    rcases Int.le_total p.meas q.meas with h | h
    · left; exact decide_eq_true h
    · right; exact decide_eq_true h⟩
  have hsorted : List.Pairwise (fun p q => lePoint p q = true) (sortPoints df) :=
    List.sorted_insertionSort _ df
  have hfil : List.Pairwise (fun p q => lePoint p q = true)
      ((sortPoints df).filter (keyP r)) :=
    List.Pairwise.sublist (List.filter_sublist _) hsorted
  refine hfil.imp_of_mem ?_
  intro p q hp hq h
  exact lePoint_meas (List.mem_filter.mp hp).2 (List.mem_filter.mp hq).2 h

/-- The filtered group of `df_sort` has exactly the grouped count of
rows. -/
theorem filter_keyP_length (df : List SurveyPoint) (r : GroupRow) :
    ((sortPoints df).filter (keyP r)).length = df.countP (keyP r) := by
  rw [← List.countP_eq_length_filter]
  exact (List.perm_insertionSort _ df).countP_eq _

/-- Every row of `df_grouped` carries the count of survey rows with its
key. -/
theorem groupedOf_numPoints {df : List SurveyPoint} {r : GroupRow}
    (h : r ∈ groupedOf df) : r.numPoints = df.countP (keyP r) := by
  unfold groupedOf at h
  rcases List.mem_map.mp h with ⟨k, _, rfl⟩
  rfl

/- Characterisation of the point-array write-out. -/

theorem flushAux_eq_pack :
    ∀ (mids : List (List Char)) (z ps : List Char) (n total : Nat),
      (∀ m ∈ mids, m.length = 16) → z.length = 17 →
      ps.length % 16 = 0 → ps.length ≤ 64 → n + mids.length = total →
      flushAux total (mids ++ [z]) n ps = packRows ps mids z := by
  intro mids
  induction mids with
  | nil =>
    intro z ps n total _ hz hp1 hp2 hn
    have hn' : n = total := by simpa using hn
    subst hn'
    show flushAux n (z :: []) n ps = packRows ps [] z
    simp only [flushAux, packRows]
    rw [if_neg (by rw [List.length_append, hz]; omega)]
    rw [if_neg (by omega)]
  | cons m mids ih =>
    intro z ps n total hm hz hp1 hp2 hn
    have hm0 : m.length = 16 := hm m (List.mem_cons_self _ _)
    have hmr : ∀ x ∈ mids, x.length = 16 := fun x hx => hm x (List.mem_cons_of_mem _ hx)
    have hn' : n + (mids.length + 1) = total := by
      simpa [Nat.add_comm, Nat.add_assoc, Nat.add_left_comm] using hn
    rw [List.cons_append]
    simp only [flushAux, packRows]
    by_cases h80 : (ps ++ m).length = 80
    · rw [if_pos h80, if_pos h80]
      rw [ih z [] (n + 1) total hmr hz (by simp) (by simp) (by omega)]
    · rw [if_neg h80, if_neg h80]
      have hlen : (ps ++ m).length = ps.length + 16 := by
        rw [List.length_append, hm0]
      rw [if_pos (by constructor <;> omega)]
      exact ih z (ps ++ m) (n + 1) total hmr hz (by omega) (by omega) (by omega)

theorem flushPts_eq_pack {mids : List (List Char)} {z : List Char}
    (hm : ∀ m ∈ mids, m.length = 16) (hz : z.length = 17) :
    flushPts (mids ++ [z]) = packRows [] mids z := by
  unfold flushPts
  refine flushAux_eq_pack mids z [] 1 (mids ++ [z]).length hm hz (by simp)
    (by simp) ?_
  rw [List.length_append]
  simp [Nat.add_comm]

theorem stripNL_append (a b : List Char) :
    stripNL (a ++ b) = stripNL a ++ stripNL b := by
  unfold stripNL
  exact List.filter_append a b

theorem stripNL_pack : ∀ (mids : List (List Char)) (ps z : List Char),
    stripNL (packRows ps mids z).flatten =
      stripNL ps ++ stripNL mids.flatten ++ stripNL z := by
  intro mids
  induction mids with
  | nil =>
    intro ps z
    simp [packRows, stripNL_append, stripNL]
  | cons m mids ih =>
    intro ps z
    rw [packRows]
    by_cases h80 : (ps ++ m).length = 80
    · rw [if_pos h80]
      rw [List.flatten_cons, stripNL_append, ih]
      simp [stripNL_append, stripNL, List.append_assoc]
    · rw [if_neg h80, ih]
      rw [List.flatten_cons, stripNL_append]
      simp [stripNL_append, List.append_assoc]

theorem stripNL_of_no_nl {l : List Char} (h : '\n' ∉ l) : stripNL l = l := by
  unfold stripNL
  rw [List.filter_eq_self]
  intro a ha
  simp only [bne_iff_ne, ne_eq]
  intro he
  subst he
  exact h ha

theorem packRows_structure :
    ∀ (mids : List (List Char)) (ps z : List Char),
      (∀ m ∈ mids, m.length = 16 ∧ '\n' ∉ m) →
      ps.length % 16 = 0 → ps.length ≤ 64 → '\n' ∉ ps →
      ∃ full leftover,
        packRows ps mids z = full ++ [leftover ++ z] ∧
        (∀ c ∈ full, ∃ w, c = w ++ ['\n'] ∧ w.length = 80 ∧ '\n' ∉ w) ∧
        leftover.length % 16 = 0 ∧ leftover.length ≤ 64 ∧ '\n' ∉ leftover := by
  intro mids
  induction mids with
  | nil =>
    intro ps z _ hp1 hp2 hp3
    exact ⟨[], ps, by rw [packRows]; simp, by simp, hp1, hp2, hp3⟩
  | cons m mids ih =>
    intro ps z hm hp1 hp2 hp3
    have hm0 := hm m (List.mem_cons_self _ _)
    have hmr : ∀ x ∈ mids, x.length = 16 ∧ '\n' ∉ x :=
      fun x hx => hm x (List.mem_cons_of_mem _ hx)
    rw [packRows]
    by_cases h80 : (ps ++ m).length = 80
    · rw [if_pos h80]
      obtain ⟨full, leftover, heq, hfull, hl1, hl2, hl3⟩ :=
        ih [] z hmr (by simp) (by simp) (by simp)
      refine ⟨(ps ++ m ++ ['\n']) :: full, leftover, ?_, ?_, hl1, hl2, hl3⟩
      · rw [heq, List.cons_append]
      · intro c hc
        rcases List.mem_cons.mp hc with h | h
        · subst h
          refine ⟨ps ++ m, by rw [List.append_assoc], h80, ?_⟩
          intro hmem
          rcases List.mem_append.mp hmem with h | h
          · exact hp3 h
          · exact hm0.2 h
        · exact hfull c h
    · rw [if_neg h80]
      have hlen : (ps ++ m).length = ps.length + 16 := by
        rw [List.length_append, hm0.1]
      refine ih (ps ++ m) z hmr (by omega) (by omega) ?_
      intro hmem
      rcases List.mem_append.mp hmem with h | h
      · exact hp3 h
      · exact hm0.2 h

/- Anchor-extraction helpers. -/

theorem takeLast_length {k : Nat} {l : List Char} (h : k ≤ l.length) :
    (takeLast k l).length = k := by
  unfold takeLast
  rw [List.length_drop]
  omega

theorem takeLast_getLast? {k : Nat} {l : List Char} (h : takeLast k l ≠ []) :
    (takeLast k l).getLast? = l.getLast? := by
  conv_rhs => rw [← List.take_append_drop (l.length - k) l]
  rw [List.getLast?_append]
  unfold takeLast at h ⊢
  cases hx : (l.drop (l.length - k)).getLast? with
  | none =>
    exact absurd (List.getLast?_eq_none_iff.mp hx) h
  | some a => simp

theorem eq_dropLast_append_getLast? {l : List Char} {c : Char}
    (h : l.getLast? = some c) : l = l.dropLast ++ [c] := by
  have hne : l ≠ [] := by
    intro he; subst he; simp at h
  rw [List.getLast?_eq_getLast l hne] at h
  injection h with h
  rw [← h]
  exact (List.dropLast_append_getLast hne).symm

/- Characterisation of single loop iterations. -/

theorem stepCore_headerBranch (grouped : List GroupRow) (dfSort : List SurveyPoint)
    (farray : List (List Char)) (num : Nat) (line : List Char) (st : RWState)
    (r : GroupRow) (fl : List Char)
    (hS : st.staElevFound = false)
    (hR : containsSub riverReachMark line = false)
    (hT : containsSub typeRMMark line = false)
    (hF1 : st.rivRchFound = true) (hF2 : st.rsFound = true)
    (hrow : st.rsRow = some r)
    (hE : containsSub staElevMark line = true)
    (hLA : pyIdx farray ((num : Int) + 1) = some fl) :
    stepCore grouped dfSort farray num line st =
      Except.ok { st with staElevFound := true,
                          out := st.out ++ [staElevHeader (r.numPoints + 2)],
                          ptArray := fl.take 16 :: (dfSort.filter (keyP r)).map pairFmt } := by
  unfold stepCore
  simp only [hS, hR, hT, hF1, hF2, hrow, hE, hLA, Bool.false_eq_true, false_and,
    if_false, and_true, and_self, if_true, true_and]

theorem stepCore_flushBranch (grouped : List GroupRow) (dfSort : List SurveyPoint)
    (farray : List (List Char)) (num : Nat) (line pl : List Char) (st : RWState)
    (h0 : num ≠ 0)
    (hS : st.staElevFound = true)
    (hM : containsSub mannMark line = true)
    (hR : containsSub riverReachMark line = false)
    (hT : containsSub typeRMMark line = false)
    (hE : containsSub staElevMark line = false)
    (hPL : pyIdx farray ((num : Int) - 1) = some pl) :
    stepCore grouped dfSort farray num line st =
      Except.ok { st with rsFound := false, staElevFound := false,
                          ptArray := st.ptArray ++ [takeLast 17 pl],
                          out := (st.out ++ flushPts (st.ptArray ++ [takeLast 17 pl])) ++ [line] } := by
  unfold stepCore
  simp only [hS, hM, hR, hT, hE, hPL, h0, Option.getD_some, Bool.false_eq_true,
    false_and, and_false, if_false, and_true, and_self, if_true, true_and,
    ne_eq, not_false_iff]

theorem stepCore_headerBranch_error (grouped : List GroupRow)
    (dfSort : List SurveyPoint) (farray : List (List Char)) (num : Nat)
    (line : List Char) (st : RWState) (r : GroupRow)
    (hS : st.staElevFound = false)
    (hR : containsSub riverReachMark line = false)
    (hT : containsSub typeRMMark line = false)
    (hF1 : st.rivRchFound = true) (hF2 : st.rsFound = true)
    (hrow : st.rsRow = some r)
    (hE : containsSub staElevMark line = true)
    (hLA : pyIdx farray ((num : Int) + 1) = none) :
    stepCore grouped dfSort farray num line st =
      Except.error (st.out ++ [staElevHeader (r.numPoints + 2)]) := by
  unfold stepCore
  simp only [hS, hR, hT, hF1, hF2, hrow, hE, hLA, Bool.false_eq_true, false_and,
    if_false, and_true, and_self, if_true, true_and]

theorem stepCore_suppress (grouped : List GroupRow) (dfSort : List SurveyPoint)
    (farray : List (List Char)) (num : Nat) (line : List Char) (st : RWState)
    (hS : st.staElevFound = true)
    (hM : containsSub mannMark line = false)
    (hR : containsSub riverReachMark line = false)
    (hT : containsSub typeRMMark line = false)
    (hE : containsSub staElevMark line = false) :
    stepCore grouped dfSort farray num line st = Except.ok st := by
  unfold stepCore
  simp only [hS, hM, hR, hT, hE, Bool.false_eq_true, false_and, and_false,
    if_false, and_true, and_self, if_true, true_and, Bool.true_eq_false]

theorem stepLine_of_ne_zero {grouped : List GroupRow} {dfSort : List SurveyPoint}
    {farray : List (List Char)} {num : Nat} {line : List Char} {st : RWState}
    (h0 : num ≠ 0) :
    stepLine grouped dfSort farray num line st =
      stepCore grouped dfSort farray num line st := by
  unfold stepLine
  rw [if_neg h0]

theorem stepCore_ok_out {grouped : List GroupRow} {dfSort : List SurveyPoint}
    {farray : List (List Char)} {num : Nat} {line : List Char}
    {st st' : RWState}
    (h : stepCore grouped dfSort farray num line st = Except.ok st') :
    ∃ t, st'.out = st.out ++ t := by
  unfold stepCore at h
  simp only [] at h
  repeat' split at h
  all_goals first
    | (injection h with h; subst h;
       first
         | exact ⟨[], (List.append_nil _).symm⟩
         | exact ⟨_, rfl⟩
         | exact ⟨_, List.append_assoc _ _ _⟩)
    | injection h

theorem stepCore_error_out {grouped : List GroupRow} {dfSort : List SurveyPoint}
    {farray : List (List Char)} {num : Nat} {line : List Char}
    {st : RWState} {e : List (List Char)}
    (h : stepCore grouped dfSort farray num line st = Except.error e) :
    ∃ t, e = st.out ++ t := by
  unfold stepCore at h
  simp only [] at h
  repeat' split at h
  all_goals first
    | (injection h with h; subst h;
       first
         | exact ⟨[], (List.append_nil _).symm⟩
         | exact ⟨_, rfl⟩
         | exact ⟨_, List.append_assoc _ _ _⟩)
    | injection h

theorem stepLine_ok_head {grouped : List GroupRow} {dfSort : List SurveyPoint}
    {farray : List (List Char)} {num : Nat} {line : List Char}
    {st st' : RWState}
    (h : stepLine grouped dfSort farray num line st = Except.ok st') :
    ∃ t, st'.out = (if num = 0 then st.out ++ [line.dropLast ++ titleSuffix]
                    else st.out) ++ t := by
  unfold stepLine at h
  by_cases h0 : num = 0
  · rw [if_pos h0] at h ⊢
    simpa using stepCore_ok_out h
  · rw [if_neg h0] at h ⊢
    exact stepCore_ok_out h

theorem stepLine_error_head {grouped : List GroupRow} {dfSort : List SurveyPoint}
    {farray : List (List Char)} {num : Nat} {line : List Char}
    {st : RWState} {e : List (List Char)}
    (h : stepLine grouped dfSort farray num line st = Except.error e) :
    ∃ t, e = (if num = 0 then st.out ++ [line.dropLast ++ titleSuffix]
              else st.out) ++ t := by
  unfold stepLine at h
  by_cases h0 : num = 0
  · rw [if_pos h0] at h ⊢
    simpa using stepCore_error_out h
  · rw [if_neg h0] at h ⊢
    exact stepCore_error_out h

theorem runLoop_out_head {grouped : List GroupRow} {dfSort : List SurveyPoint}
    {farray : List (List Char)} :
    ∀ (rest : List (List Char)) (num : Nat) (st : RWState), num ≠ 0 →
      st.out ≠ [] →
      (outOf (runLoop grouped dfSort farray num rest st)).head? = st.out.head? := by
  intro rest
  induction rest with
  | nil =>
    intro num st _ _
    rfl
  | cons line rest ih =>
    intro num st h0 hne
    rw [runLoop]
    obtain ⟨a, t0, ha⟩ := List.exists_cons_of_ne_nil hne
    cases hstep : stepLine grouped dfSort farray num line st with
    | ok st1 =>
      obtain ⟨t, ht⟩ := stepLine_ok_head hstep
      rw [if_neg h0] at ht
      rw [ih (num + 1) st1 (by omega) (by rw [ht, ha]; simp)]
      rw [ht, ha]
      simp
    | error e =>
      obtain ⟨t, ht⟩ := stepLine_error_head hstep
      rw [if_neg h0] at ht
      show e.head? = st.out.head?
      rw [ht, ha]
      simp

theorem resultOut_rewriteGeom (df : List SurveyPoint) (farray : List (List Char)) :
    resultOut (rewriteGeom df farray) =
      outOf (runLoop (groupedOf df) (sortPoints df) farray 0 farray initState) := by
  unfold rewriteGeom
  cases runLoop (groupedOf df) (sortPoints df) farray 0 farray initState with
  | ok st => rfl
  | error e => rfl

/- Behaviour with an empty survey table. -/

theorem stepCore_empty (farray : List (List Char)) (num : Nat) (line : List Char)
    (st : RWState) (h0 : num ≠ 0) (h1 : st.rivRchFound = false)
    (h2 : st.staElevFound = false) :
    stepCore [] [] farray num line st =
      Except.ok { st with out := st.out ++ [line] } := by
  obtain ⟨f1, f2, f3, f4, f5, f6, f7⟩ := st
  simp only [] at h1 h2
  subst h1
  subst h2
  unfold stepCore
  simp only [searchRivRch, Bool.false_eq_true, false_and, and_false, if_false,
    ite_self, h0, ne_eq, not_false_iff, and_true, and_self, if_true, true_and]

theorem stepCore_empty_zero (farray : List (List Char)) (line : List Char)
    (st : RWState) (h1 : st.rivRchFound = false) (h2 : st.staElevFound = false) :
    stepCore [] [] farray 0 line st = Except.ok st := by
  obtain ⟨f1, f2, f3, f4, f5, f6, f7⟩ := st
  simp only [] at h1 h2
  subst h1
  subst h2
  unfold stepCore
  simp only [searchRivRch, Bool.false_eq_true, false_and, and_false, if_false,
    ite_self, ne_eq, and_true, and_self, if_true, true_and, Bool.true_eq_false]
  simp

theorem runLoop_empty (farray : List (List Char)) :
    ∀ (rest : List (List Char)) (num : Nat) (st : RWState), num ≠ 0 →
      st.rivRchFound = false → st.staElevFound = false →
      runLoop [] [] farray num rest st =
        Except.ok { st with out := st.out ++ rest } := by
  intro rest
  induction rest with
  | nil =>
    intro num st _ _ _
    rw [runLoop]
    congr 1
    obtain ⟨f1, f2, f3, f4, f5, f6, f7⟩ := st
    simp
  | cons line rest ih =>
    intro num st h0 h1 h2
    rw [runLoop]
    rw [stepLine_of_ne_zero h0, stepCore_empty farray num line st h0 h1 h2]
    show runLoop [] [] farray (num + 1) rest { st with out := st.out ++ [line] } = _
    have hrec := ih (num + 1) { st with out := st.out ++ [line] } (by omega) h1 h2
    rw [hrec]
    congr 1
    simp

theorem flatten_length_16 : ∀ {L : List (List Char)},
    (∀ m ∈ L, m.length = 16) → L.flatten.length = 16 * L.length := by
  intro L
  induction L with
  | nil => intro _; rfl
  | cons m L ih =>
    intro h
    rw [List.flatten_cons, List.length_append, h m (List.mem_cons_self _ _),
      ih fun x hx => h x (List.mem_cons_of_mem _ hx)]
    simp [Nat.mul_add, Nat.mul_succ]
    omega

/- Claim theorems. -/

/-- C10: for every input document, the output title line is the input's
line 0 with its final character unconditionally removed and the suffix
appended — the first chunk written (also present in the partial output
of a failed run) is `line0.dropLast ++ "_WithSurvey\n"`; in particular,
when line 0 does not end with a newline its last data character is
dropped. -/
theorem c10_title_line (df : List SurveyPoint) (l0 : List Char)
    (rest : List (List Char)) :
    (resultOut (rewriteGeom df (l0 :: rest))).head? =
      some (l0.dropLast ++ titleSuffix) := by
  rw [resultOut_rewriteGeom, runLoop]
  cases hstep : stepLine (groupedOf df) (sortPoints df) (l0 :: rest) 0 l0
      initState with
  | ok st1 =>
    obtain ⟨t, ht⟩ := stepLine_ok_head hstep
    rw [if_pos rfl] at ht
    have hne : st1.out ≠ [] := by rw [ht]; simp [initState]
    show (outOf (runLoop (groupedOf df) (sortPoints df) (l0 :: rest) 1 rest
      st1)).head? = _
    rw [runLoop_out_head rest 1 st1 (by omega) hne, ht]
    simp [initState]
  | error e =>
    obtain ⟨t, ht⟩ := stepLine_error_head hstep
    rw [if_pos rfl] at ht
    show e.head? = _
    rw [ht]
    simp [initState]

/-- C8 counterexample: on a document whose single (title) line has no
trailing newline, the output is not the input with the suffix appended —
the title's last data character is dropped first, so the claim as stated
fails at this input. -/
theorem c8_counterexample :
    rewriteGeom [] ["abc".data] = Except.ok ["ab_WithSurvey\n".data] ∧
    ["ab_WithSurvey\n".data] ≠ ["abc".data ++ "_WithSurvey\n".data] := by
  constructor
  · rfl
  · decide

/-- C8 (amended): with an empty survey table, for every document whose
title line ends with a newline, the output is the input unchanged except
that the suffix is inserted into the title line before its newline. -/
theorem c8_empty_table_identity (t : List Char) (rest : List (List Char)) :
    rewriteGeom [] ((t ++ ['\n']) :: rest) =
      Except.ok ((t ++ titleSuffix) :: rest) := by
  unfold rewriteGeom
  rw [show groupedOf [] = [] from rfl, show sortPoints [] = [] from rfl]
  rw [runLoop]
  have hstep : stepLine [] [] ((t ++ ['\n']) :: rest) 0 (t ++ ['\n'])
      initState = Except.ok
        { initState with out := [(t ++ ['\n']).dropLast ++ titleSuffix] } := by
    unfold stepLine
    rw [if_pos rfl]
    exact stepCore_empty_zero ((t ++ ['\n']) :: rest) (t ++ ['\n'])
      { initState with out :=
          initState.out ++ [(t ++ ['\n']).dropLast ++ titleSuffix] } rfl rfl
  rw [hstep]
  have hrun := runLoop_empty ((t ++ ['\n']) :: rest) rest 1
      { initState with out := [(t ++ ['\n']).dropLast ++ titleSuffix] }
      (by omega) rfl rfl
  show (match runLoop [] [] ((t ++ ['\n']) :: rest) 1 rest
      { initState with out := [(t ++ ['\n']).dropLast ++ titleSuffix] } with
    | Except.ok st => Except.ok st.out
    | Except.error e => Except.error e) = _
  rw [hrun]
  simp [initState, List.dropLast_concat]

/-- C1: evaluation of the code at the failing input.  The survey table
`exDf` holds the single key (R, X, 100); in `exDoc1` the only
cross-section lies under reach (Q, Y), so its key (Q, Y, 100) is absent
from the table, yet its point table is replaced — the original pair
`"   5.000  98.000"` survives nowhere in the output byte stream.  The
`riv_rch_found` flag set by the earlier (R, X) reach line is never
reset, and the non-matching reach search leaves `row` bound to the last
grouped row, so the foreign station is matched against the stale key.
This contradicts the script's own description (replacement only "where
river + reach + river station matches are found"). -/
theorem c1_absent_key_rewritten :
    rewriteGeom exDf exDoc1 = Except.ok exOut1 ∧
    containsSub "   5.000  98.000".data exOut1.flatten = false := by
  constructor
  · rfl
  · decide

/-- C2: count invariant.  First part: whenever the point-table header of
a matched cross-section is rewritten (the `#Sta/Elev=` branch fires with
matched grouped row `r`), the emitted header chunk reads
`#Sta/Elev= (r.numPoints + 2)` and the accumulated point array holds
`r.numPoints + 1` entries (the leading anchor plus the survey group).
Second part: at the terminator, the flushed table consists of the array
plus the trailing anchor, and its newline-stripped byte length is
`16 * (length + 1)` — exactly that many 16-character point pairs. -/
theorem c2_count_invariant :
    (∀ (df : List SurveyPoint) (farray : List (List Char)) (num : Nat)
       (line : List Char) (st : RWState) (r : GroupRow) (fl : List Char),
       num ≠ 0 → st.staElevFound = false →
       containsSub riverReachMark line = false →
       containsSub typeRMMark line = false →
       st.rivRchFound = true → st.rsFound = true → st.rsRow = some r →
       r ∈ groupedOf df →
       containsSub staElevMark line = true →
       pyIdx farray ((num : Int) + 1) = some fl →
       ∃ st', stepLine (groupedOf df) (sortPoints df) farray num line st =
           Except.ok st' ∧
         st'.out = st.out ++ [staElevHeader (r.numPoints + 2)] ∧
         st'.ptArray.length = r.numPoints + 1) ∧
    (∀ (grouped : List GroupRow) (dfSort : List SurveyPoint)
       (farray : List (List Char)) (num : Nat) (line pl : List Char)
       (st : RWState),
       num ≠ 0 → st.staElevFound = true →
       containsSub mannMark line = true →
       containsSub riverReachMark line = false →
       containsSub typeRMMark line = false →
       containsSub staElevMark line = false →
       pyIdx farray ((num : Int) - 1) = some pl →
       (∀ m ∈ st.ptArray, m.length = 16 ∧ '\n' ∉ m) →
       17 ≤ pl.length → pl.getLast? = some '\n' →
       '\n' ∉ (takeLast 17 pl).dropLast →
       ∃ st', stepLine grouped dfSort farray num line st = Except.ok st' ∧
         st'.out = (st.out ++ flushPts (st.ptArray ++ [takeLast 17 pl])) ++
           [line] ∧
         (stripNL (flushPts (st.ptArray ++ [takeLast 17 pl])).flatten).length =
           16 * (st.ptArray.length + 1)) := by
  constructor
  · intro df farray num line st r fl h0 hS hR hT hF1 hF2 hrow hmem hE hLA
    have hstep := stepCore_headerBranch (groupedOf df) (sortPoints df) farray
      num line st r fl hS hR hT hF1 hF2 hrow hE hLA
    refine ⟨_, (stepLine_of_ne_zero h0).trans hstep, rfl, ?_⟩
    show (fl.take 16 :: ((sortPoints df).filter (keyP r)).map pairFmt).length
        = r.numPoints + 1
    rw [List.length_cons, List.length_map, filter_keyP_length,
      groupedOf_numPoints hmem]
  · intro grouped dfSort farray num line pl st h0 hS hM hR hT hE hPL hshape
      hlen hlast hnl
    have hstep := stepCore_flushBranch grouped dfSort farray num line pl st
      h0 hS hM hR hT hE hPL
    refine ⟨_, (stepLine_of_ne_zero h0).trans hstep, rfl, ?_⟩
    have hz : (takeLast 17 pl).length = 17 := takeLast_length hlen
    have hm16 : ∀ m ∈ st.ptArray, m.length = 16 := fun m hm => (hshape m hm).1
    rw [flushPts_eq_pack hm16 hz, stripNL_pack]
    have hflat : '\n' ∉ st.ptArray.flatten := by
      intro hmem2
      rcases List.mem_flatten.mp hmem2 with ⟨l, hl, hc⟩
      exact (hshape l hl).2 hc
    rw [stripNL_of_no_nl hflat]
    have hzne : takeLast 17 pl ≠ [] := by
      intro he
      rw [he] at hz
      simp at hz
    have hzlast : (takeLast 17 pl).getLast? = some '\n' := by
      rw [takeLast_getLast? hzne, hlast]
    have hzeq := eq_dropLast_append_getLast? hzlast
    rw [show stripNL (takeLast 17 pl) = (takeLast 17 pl).dropLast by
      conv_lhs => rw [hzeq]
      rw [stripNL_append, stripNL_of_no_nl hnl]
      simp [stripNL]]
    rw [List.length_append, List.length_append,
      flatten_length_16 hm16, List.length_dropLast, hz]
    simp [stripNL]
    omega

/-- C3: anchor preservation.  First part: the header branch captures the
leading anchor verbatim as the first 16 characters of the line
immediately following the header.  Second part: at the terminator, the
first 16 characters of the newline-stripped emitted table are exactly
the accumulated leading anchor, and the last 16 characters are the
fixed-width pair at the tail of the line immediately preceding the
terminator; since the anchors are byte-copies, their decoded
station/elevation values agree (to 3 decimal places) with the original
table's first and last pairs. -/
theorem c3_anchor_preservation :
    (∀ (df : List SurveyPoint) (farray : List (List Char)) (num : Nat)
       (line : List Char) (st : RWState) (r : GroupRow) (fl : List Char),
       num ≠ 0 → st.staElevFound = false →
       containsSub riverReachMark line = false →
       containsSub typeRMMark line = false →
       st.rivRchFound = true → st.rsFound = true → st.rsRow = some r →
       containsSub staElevMark line = true →
       pyIdx farray ((num : Int) + 1) = some fl →
       ∃ st', stepLine (groupedOf df) (sortPoints df) farray num line st =
           Except.ok st' ∧
         st'.ptArray.head? = some (fl.take 16)) ∧
    (∀ (grouped : List GroupRow) (dfSort : List SurveyPoint)
       (farray : List (List Char)) (num : Nat) (line pl fp : List Char)
       (mids : List (List Char)) (st : RWState),
       num ≠ 0 → st.staElevFound = true →
       containsSub mannMark line = true →
       containsSub riverReachMark line = false →
       containsSub typeRMMark line = false →
       containsSub staElevMark line = false →
       pyIdx farray ((num : Int) - 1) = some pl →
       st.ptArray = fp :: mids →
       fp.length = 16 → '\n' ∉ fp →
       (∀ m ∈ mids, m.length = 16 ∧ '\n' ∉ m) →
       17 ≤ pl.length → pl.getLast? = some '\n' →
       '\n' ∉ (takeLast 17 pl).dropLast →
       ∃ st', stepLine grouped dfSort farray num line st = Except.ok st' ∧
         (stripNL (flushPts (st.ptArray ++ [takeLast 17 pl])).flatten).take 16
           = fp ∧
         (stripNL (flushPts (st.ptArray ++ [takeLast 17 pl])).flatten).drop
             ((stripNL (flushPts (st.ptArray ++
               [takeLast 17 pl])).flatten).length - 16)
           = (takeLast 17 pl).dropLast ∧
         parsePair16 ((stripNL (flushPts (st.ptArray ++
             [takeLast 17 pl])).flatten).take 16) = parsePair16 fp) := by
  constructor
  · intro df farray num line st r fl h0 hS hR hT hF1 hF2 hrow hE hLA
    have hstep := stepCore_headerBranch (groupedOf df) (sortPoints df) farray
      num line st r fl hS hR hT hF1 hF2 hrow hE hLA
    exact ⟨_, (stepLine_of_ne_zero h0).trans hstep, rfl⟩
  · intro grouped dfSort farray num line pl fp mids st h0 hS hM hR hT hE hPL
      harr hfp hfpnl hmids hlen hlast hnl
    have hstep := stepCore_flushBranch grouped dfSort farray num line pl st
      h0 hS hM hR hT hE hPL
    have hz : (takeLast 17 pl).length = 17 := takeLast_length hlen
    have hzne : takeLast 17 pl ≠ [] := by
      intro he
      rw [he] at hz
      simp at hz
    have hzlast : (takeLast 17 pl).getLast? = some '\n' := by
      rw [takeLast_getLast? hzne, hlast]
    have hzeq := eq_dropLast_append_getLast? hzlast
    have hstrip : stripNL (takeLast 17 pl) = (takeLast 17 pl).dropLast := by
      conv_lhs => rw [hzeq]
      rw [stripNL_append, stripNL_of_no_nl hnl]
      simp [stripNL]
    have hm16 : ∀ m ∈ st.ptArray, m.length = 16 := by
      rw [harr]
      intro m hm
      rcases List.mem_cons.mp hm with h | h
      · rw [h, hfp]
      · exact (hmids m h).1
    have hnlarr : '\n' ∉ st.ptArray.flatten := by
      rw [harr]
      intro hmem2
      rcases List.mem_flatten.mp hmem2 with ⟨l, hl, hc⟩
      rcases List.mem_cons.mp hl with h | h
      · rw [h] at hc; exact hfpnl hc
      · exact (hmids l h).2 hc
    have hemit : stripNL (flushPts (st.ptArray ++ [takeLast 17 pl])).flatten =
        (fp ++ mids.flatten) ++ (takeLast 17 pl).dropLast := by
      rw [flushPts_eq_pack hm16 hz, stripNL_pack, stripNL_of_no_nl hnlarr,
        hstrip, harr]
      simp [stripNL, List.flatten_cons]
    have hwlen : ((takeLast 17 pl).dropLast).length = 16 := by
      rw [List.length_dropLast, hz]
    refine ⟨_, (stepLine_of_ne_zero h0).trans hstep, ?_, ?_, ?_⟩
    · rw [hemit]
      rw [List.append_assoc, ← hfp, List.take_left]
    · rw [hemit]
      rw [List.length_append, hwlen, Nat.add_sub_cancel]
      exact List.drop_left _ _
    · rw [hemit, List.append_assoc, ← hfp, List.take_left]

/-- C7: order preservation.  First part: the header branch builds the
point array as the leading anchor followed by the matched key group of
`df_sort` mapped through the fixed-width encoder in its stored order
(no re-sorting happens), and that stored order is ascending on MEAS.
Second part: the newline-stripped emitted table is exactly the leading
anchor, the interior entries in array order, then the trailing anchor. -/
theorem c7_order_preservation :
    (∀ (df : List SurveyPoint) (farray : List (List Char)) (num : Nat)
       (line : List Char) (st : RWState) (r : GroupRow) (fl : List Char),
       num ≠ 0 → st.staElevFound = false →
       containsSub riverReachMark line = false →
       containsSub typeRMMark line = false →
       st.rivRchFound = true → st.rsFound = true → st.rsRow = some r →
       containsSub staElevMark line = true →
       pyIdx farray ((num : Int) + 1) = some fl →
       ∃ st', stepLine (groupedOf df) (sortPoints df) farray num line st =
           Except.ok st' ∧
         st'.ptArray =
           fl.take 16 :: ((sortPoints df).filter (keyP r)).map pairFmt ∧
         List.Pairwise (fun p q : SurveyPoint => p.meas ≤ q.meas)
           ((sortPoints df).filter (keyP r))) ∧
    (∀ (grouped : List GroupRow) (dfSort : List SurveyPoint)
       (farray : List (List Char)) (num : Nat) (line pl fp : List Char)
       (mids : List (List Char)) (st : RWState),
       num ≠ 0 → st.staElevFound = true →
       containsSub mannMark line = true →
       containsSub riverReachMark line = false →
       containsSub typeRMMark line = false →
       containsSub staElevMark line = false →
       pyIdx farray ((num : Int) - 1) = some pl →
       st.ptArray = fp :: mids →
       fp.length = 16 → '\n' ∉ fp →
       (∀ m ∈ mids, m.length = 16 ∧ '\n' ∉ m) →
       17 ≤ pl.length → pl.getLast? = some '\n' →
       '\n' ∉ (takeLast 17 pl).dropLast →
       ∃ st', stepLine grouped dfSort farray num line st = Except.ok st' ∧
         stripNL (flushPts (st.ptArray ++ [takeLast 17 pl])).flatten =
           fp ++ mids.flatten ++ (takeLast 17 pl).dropLast) := by
  constructor
  · intro df farray num line st r fl h0 hS hR hT hF1 hF2 hrow hE hLA
    have hstep := stepCore_headerBranch (groupedOf df) (sortPoints df) farray
      num line st r fl hS hR hT hF1 hF2 hrow hE hLA
    exact ⟨_, (stepLine_of_ne_zero h0).trans hstep, rfl,
      sortPoints_group_sorted df r⟩
  · intro grouped dfSort farray num line pl fp mids st h0 hS hM hR hT hE hPL
      harr hfp hfpnl hmids hlen hlast hnl
    have hstep := stepCore_flushBranch grouped dfSort farray num line pl st
      h0 hS hM hR hT hE hPL
    have hz : (takeLast 17 pl).length = 17 := takeLast_length hlen
    have hzne : takeLast 17 pl ≠ [] := by
      intro he
      rw [he] at hz
      simp at hz
    have hzlast : (takeLast 17 pl).getLast? = some '\n' := by
      rw [takeLast_getLast? hzne, hlast]
    have hstrip : stripNL (takeLast 17 pl) = (takeLast 17 pl).dropLast := by
      conv_lhs => rw [eq_dropLast_append_getLast? hzlast]
      rw [stripNL_append, stripNL_of_no_nl hnl]
      simp [stripNL]
    have hm16 : ∀ m ∈ st.ptArray, m.length = 16 := by
      rw [harr]
      intro m hm
      rcases List.mem_cons.mp hm with h | h
      · rw [h, hfp]
      · exact (hmids m h).1
    have hnlarr : '\n' ∉ st.ptArray.flatten := by
      rw [harr]
      intro hmem2
      rcases List.mem_flatten.mp hmem2 with ⟨l, hl, hc⟩
      rcases List.mem_cons.mp hl with h | h
      · rw [h] at hc; exact hfpnl hc
      · exact (hmids l h).2 hc
    refine ⟨_, (stepLine_of_ne_zero h0).trans hstep, ?_⟩
    rw [flushPts_eq_pack hm16 hz, stripNL_pack, stripNL_of_no_nl hnlarr,
      hstrip, harr]
    simp [stripNL, List.flatten_cons]

/-- C9: the trailing anchor appended at the terminator is the last 17
characters of the preceding line — its final 16-character pair together
with that line's own newline — and the final chunk of the synthesized
table is written raw, ending exactly in that carried-over newline: every
earlier chunk is an 80-character line with a newline appended by the
writer, while the last chunk is `leftover ++ takeLast 17 pl` with no
appended newline of its own. -/
theorem c9_trailing_anchor_carried_newline
    (grouped : List GroupRow) (dfSort : List SurveyPoint)
    (farray : List (List Char)) (num : Nat) (line pl : List Char)
    (st : RWState)
    (h0 : num ≠ 0) (hS : st.staElevFound = true)
    (hM : containsSub mannMark line = true)
    (hR : containsSub riverReachMark line = false)
    (hT : containsSub typeRMMark line = false)
    (hE : containsSub staElevMark line = false)
    (hPL : pyIdx farray ((num : Int) - 1) = some pl)
    (hshape : ∀ m ∈ st.ptArray, m.length = 16 ∧ '\n' ∉ m)
    (hlen : 17 ≤ pl.length) (hlast : pl.getLast? = some '\n') :
    ∃ st' full leftover,
      stepLine grouped dfSort farray num line st = Except.ok st' ∧
      st'.ptArray = st.ptArray ++ [takeLast 17 pl] ∧
      (takeLast 17 pl).length = 17 ∧
      (takeLast 17 pl).getLast? = some '\n' ∧
      flushPts (st.ptArray ++ [takeLast 17 pl]) =
        full ++ [leftover ++ takeLast 17 pl] ∧
      (∀ c ∈ full, ∃ w, c = w ++ ['\n'] ∧ w.length = 80 ∧ '\n' ∉ w) ∧
      st'.out = (st.out ++ (full ++ [leftover ++ takeLast 17 pl])) ++ [line] := by
  have hstep := stepCore_flushBranch grouped dfSort farray num line pl st
    h0 hS hM hR hT hE hPL
  have hz : (takeLast 17 pl).length = 17 := takeLast_length hlen
  have hzne : takeLast 17 pl ≠ [] := by
    intro he
    rw [he] at hz
    simp at hz
  have hzlast : (takeLast 17 pl).getLast? = some '\n' := by
    rw [takeLast_getLast? hzne, hlast]
  have hm16 : ∀ m ∈ st.ptArray, m.length = 16 := fun m hm => (hshape m hm).1
  have hpack := flushPts_eq_pack hm16 hz
  obtain ⟨full, leftover, heq, hfull, _, _, _⟩ :=
    packRows_structure st.ptArray [] (takeLast 17 pl)
      hshape (by simp) (by simp) (by simp)
  refine ⟨_, full, leftover, (stepLine_of_ne_zero h0).trans hstep, rfl, hz,
    hzlast, ?_, hfull, ?_⟩
  · rw [hpack, heq]
  · show st.out ++ flushPts (st.ptArray ++ [takeLast 17 pl]) ++ [line] = _
    rw [hpack, heq]

/-- C6: fixed-width round trip and line lengths.  First part: encoding
any value (in thousandths) with the 8.3f packing and decoding it
recovers the value exactly, hence to 3 decimal places.  Second part:
for a well-shaped point array (16-character pairs followed by the
17-character trailing anchor ending in the carried newline), every
chunk the writer emits before the last is a line of exactly 80
characters plus its newline, and the final line
(`leftover ++ z.dropLast`) is at most 80 characters — only it may be
shorter. -/
theorem c6_roundtrip_and_line_lengths :
    (∀ m : Int, parse83 (fmt83 m) = some m) ∧
    (∀ (mids : List (List Char)) (z : List Char),
       (∀ m ∈ mids, m.length = 16 ∧ '\n' ∉ m) → z.length = 17 →
       z.getLast? = some '\n' → '\n' ∉ z.dropLast →
       ∃ full leftover,
         flushPts (mids ++ [z]) = full ++ [leftover ++ z] ∧
         (∀ c ∈ full, ∃ w, c = w ++ ['\n'] ∧ w.length = 80 ∧ '\n' ∉ w) ∧
         leftover ++ z = (leftover ++ z.dropLast) ++ ['\n'] ∧
         (leftover ++ z.dropLast).length ≤ 80) := by
  constructor
  · exact parse83_fmt83
  · intro mids z hmids hz hzlast hznl
    have hm16 : ∀ m ∈ mids, m.length = 16 := fun m hm => (hmids m hm).1
    obtain ⟨full, leftover, heq, hfull, _, hllen, _⟩ :=
      packRows_structure mids [] z hmids (by simp) (by simp) (by simp)
    refine ⟨full, leftover, ?_, hfull, ?_, ?_⟩
    · rw [flushPts_eq_pack hm16 hz, heq]
    · conv_lhs => rw [eq_dropLast_append_getLast? hzlast]
      rw [List.append_assoc]
    · rw [List.length_append, List.length_dropLast, hz]
      omega

/-- C4 counterexample: in `exDoc4` the anchor line following the matched
point-table header is `"ab\n"` — far too short for a 16-character
fixed-width pair — yet the rewrite completes without any failure,
silently embedding the truncated anchor (the fifth output chunk starts
with `"ab\n"`); the claimed fatal `FormatError` never happens. -/
theorem c4_counterexample :
    rewriteGeom exDf exDoc4 = Except.ok exOut4 := by
  rfl

/-- C4 (amended): a too-short anchor line is truncated silently, never
a failure.  First part: when the line after a matched header is shorter
than 16 characters, the step still succeeds and the leading anchor is
the entire short line.  Second part: when the line before the
terminator is shorter than 17 characters, the step still succeeds and
the trailing anchor is that entire short line. -/
theorem c4_short_anchor_silently_truncated :
    (∀ (df : List SurveyPoint) (farray : List (List Char)) (num : Nat)
       (line : List Char) (st : RWState) (r : GroupRow) (fl : List Char),
       num ≠ 0 → st.staElevFound = false →
       containsSub riverReachMark line = false →
       containsSub typeRMMark line = false →
       st.rivRchFound = true → st.rsFound = true → st.rsRow = some r →
       containsSub staElevMark line = true →
       pyIdx farray ((num : Int) + 1) = some fl →
       fl.length < 16 →
       ∃ st', stepLine (groupedOf df) (sortPoints df) farray num line st =
           Except.ok st' ∧
         st'.ptArray.head? = some fl) ∧
    (∀ (grouped : List GroupRow) (dfSort : List SurveyPoint)
       (farray : List (List Char)) (num : Nat) (line pl : List Char)
       (st : RWState),
       num ≠ 0 → st.staElevFound = true →
       containsSub mannMark line = true →
       containsSub riverReachMark line = false →
       containsSub typeRMMark line = false →
       containsSub staElevMark line = false →
       pyIdx farray ((num : Int) - 1) = some pl →
       pl.length < 17 →
       ∃ st', stepLine grouped dfSort farray num line st = Except.ok st' ∧
         st'.ptArray = st.ptArray ++ [pl]) := by
  constructor
  · intro df farray num line st r fl h0 hS hR hT hF1 hF2 hrow hE hLA hshort
    have hstep := stepCore_headerBranch (groupedOf df) (sortPoints df) farray
      num line st r fl hS hR hT hF1 hF2 hrow hE hLA
    refine ⟨_, (stepLine_of_ne_zero h0).trans hstep, ?_⟩
    show some (fl.take 16) = some fl
    rw [List.take_of_length_le (by omega)]
  · intro grouped dfSort farray num line pl st h0 hS hM hR hT hE hPL hshort
    have hstep := stepCore_flushBranch grouped dfSort farray num line pl st
      h0 hS hM hR hT hE hPL
    refine ⟨_, (stepLine_of_ne_zero h0).trans hstep, ?_⟩
    show st.ptArray ++ [takeLast 17 pl] = st.ptArray ++ [pl]
    unfold takeLast
    rw [Nat.sub_eq_zero_of_le (by omega), List.drop_zero]

/-- C5 counterexample: on `exDoc5` the rewrite fails (the matched
point-table header is the last line, so the one-line lookahead for the
anchor is out of range), yet four chunks — the rewritten title, two
copied lines and the rewritten header — have already been written to
the output sink: the failure does not occur before output is written. -/
theorem c5_counterexample :
    rewriteGeom exDf exDoc5 = Except.error exErr5 ∧ exErr5 ≠ [] := by
  constructor
  · rfl
  · decide

/-- C5 (amended): a rewrite failure at a matched point-table header
(missing lookahead line) occurs after the previously copied lines and
the freshly rewritten header have been written: the failure value
carries `st.out ++ [header]`, so whenever anything was written before,
the failed run leaves partial output rather than none. -/
theorem c5_failure_after_output_written
    (grouped : List GroupRow) (dfSort : List SurveyPoint)
    (farray : List (List Char)) (num : Nat) (line : List Char)
    (st : RWState) (r : GroupRow)
    (h0 : num ≠ 0) (hS : st.staElevFound = false)
    (hR : containsSub riverReachMark line = false)
    (hT : containsSub typeRMMark line = false)
    (hF1 : st.rivRchFound = true) (hF2 : st.rsFound = true)
    (hrow : st.rsRow = some r)
    (hE : containsSub staElevMark line = true)
    (hLA : pyIdx farray ((num : Int) + 1) = none) :
    stepLine grouped dfSort farray num line st =
      Except.error (st.out ++ [staElevHeader (r.numPoints + 2)]) := by
  rw [stepLine_of_ne_zero h0]
  exact stepCore_headerBranch_error grouped dfSort farray num line st r
    hS hR hT hF1 hF2 hrow hE hLA

/-- Witness for C2 at the fixtures: a matched header at index 1 of
`exDocHeader`, then a terminator at index 1 of `exDocFlush`. -/
theorem c2_count_invariant_witness :
    (∃ st', stepLine (groupedOf exDf) (sortPoints exDf) exDocHeader 1
        exHeaderLine exStHeader = Except.ok st' ∧
      st'.out = exStHeader.out ++ [staElevHeader (exRow.numPoints + 2)] ∧
      st'.ptArray.length = exRow.numPoints + 1) ∧
    (∃ st', stepLine [] [] exDocFlush 1 exMannLine exStFlush =
        Except.ok st' ∧
      st'.out = (exStFlush.out ++ flushPts (exStFlush.ptArray ++
        [takeLast 17 "  10.000  95.000\n".data])) ++ [exMannLine] ∧
      (stripNL (flushPts (exStFlush.ptArray ++
        [takeLast 17 "  10.000  95.000\n".data])).flatten).length =
        16 * (exStFlush.ptArray.length + 1)) :=
  ⟨c2_count_invariant.1 exDf exDocHeader 1 exHeaderLine exStHeader exRow _
      (by decide) rfl rfl rfl rfl rfl rfl (by decide) rfl rfl,
   c2_count_invariant.2 [] [] exDocFlush 1 exMannLine
      "  10.000  95.000\n".data exStFlush (by decide) rfl rfl rfl rfl rfl rfl
      (by decide) (by decide) rfl (by decide)⟩

/-- Witness for C3 at the fixtures. -/
theorem c3_anchor_preservation_witness :
    (∃ st', stepLine (groupedOf exDf) (sortPoints exDf) exDocHeader 1
        exHeaderLine exStHeader = Except.ok st' ∧
      st'.ptArray.head? =
        some (("   0.000 100.000   5.000  98.000\n".data).take 16)) ∧
    (∃ st', stepLine [] [] exDocFlush 1 exMannLine exStFlush =
        Except.ok st' ∧
      (stripNL (flushPts (exStFlush.ptArray ++
        [takeLast 17 "  10.000  95.000\n".data])).flatten).take 16 =
        "   0.000 100.000".data ∧
      (stripNL (flushPts (exStFlush.ptArray ++
          [takeLast 17 "  10.000  95.000\n".data])).flatten).drop
          ((stripNL (flushPts (exStFlush.ptArray ++
            [takeLast 17 "  10.000  95.000\n".data])).flatten).length - 16) =
        (takeLast 17 "  10.000  95.000\n".data).dropLast ∧
      parsePair16 ((stripNL (flushPts (exStFlush.ptArray ++
          [takeLast 17 "  10.000  95.000\n".data])).flatten).take 16) =
        parsePair16 "   0.000 100.000".data) :=
  ⟨c3_anchor_preservation.1 exDf exDocHeader 1 exHeaderLine exStHeader exRow _
      (by decide) rfl rfl rfl rfl rfl rfl rfl rfl,
   c3_anchor_preservation.2 [] [] exDocFlush 1 exMannLine
      "  10.000  95.000\n".data "   0.000 100.000".data
      ["   2.000   9.000".data] exStFlush (by decide) rfl rfl rfl rfl rfl rfl
      rfl rfl (by decide) (by decide) (by decide) rfl (by decide)⟩

/-- Witness for C4 (amended) at the fixtures: a 3-character anchor line
after the header, and a 6-character line before the terminator. -/
theorem c4_short_anchor_witness :
    (∃ st', stepLine (groupedOf exDf) (sortPoints exDf) exDocShortAnchor 1
        exHeaderLine exStHeader = Except.ok st' ∧
      st'.ptArray.head? = some "ab\n".data) ∧
    (∃ st', stepLine [] [] exDocShortFlush 1 exMannLine exStFlush =
        Except.ok st' ∧
      st'.ptArray = exStFlush.ptArray ++ ["short\n".data]) :=
  ⟨c4_short_anchor_silently_truncated.1 exDf exDocShortAnchor 1 exHeaderLine
      exStHeader exRow _ (by decide) rfl rfl rfl rfl rfl rfl rfl rfl
      (by decide),
   c4_short_anchor_silently_truncated.2 [] [] exDocShortFlush 1 exMannLine
      "short\n".data exStFlush (by decide) rfl rfl rfl rfl rfl rfl
      (by decide)⟩

/-- Witness for C5 (amended) at the fixtures: the header is the last
line of `exDocNoNext`, and the failure value carries the header chunk
after the previously written output. -/
theorem c5_failure_witness :
    stepLine [exRow] (sortPoints exDf) exDocNoNext 1 exHeaderLine exStHeader =
      Except.error (exStHeader.out ++ [staElevHeader (exRow.numPoints + 2)]) :=
  c5_failure_after_output_written [exRow] (sortPoints exDf) exDocNoNext 1
    exHeaderLine exStHeader exRow (by decide) rfl rfl rfl rfl rfl rfl rfl rfl

/-- Witness for C6: the round trip at the value -12.345, and the
line-length structure of a two-pair table flush. -/
theorem c6_roundtrip_witness :
    parse83 (fmt83 (-12345)) = some (-12345) ∧
    (∃ full leftover,
      flushPts (["   0.000 100.000".data] ++ ["  10.000  95.000\n".data]) =
        full ++ [leftover ++ "  10.000  95.000\n".data] ∧
      (∀ c ∈ full, ∃ w, c = w ++ ['\n'] ∧ w.length = 80 ∧ '\n' ∉ w) ∧
      leftover ++ "  10.000  95.000\n".data =
        (leftover ++ ("  10.000  95.000\n".data).dropLast) ++ ['\n'] ∧
      (leftover ++ ("  10.000  95.000\n".data).dropLast).length ≤ 80) :=
  ⟨c6_roundtrip_and_line_lengths.1 (-12345),
   c6_roundtrip_and_line_lengths.2 ["   0.000 100.000".data]
      "  10.000  95.000\n".data (by decide) rfl rfl (by decide)⟩

/-- Witness for C7 at the fixtures. -/
theorem c7_order_preservation_witness :
    (∃ st', stepLine (groupedOf exDf) (sortPoints exDf) exDocHeader 1
        exHeaderLine exStHeader = Except.ok st' ∧
      st'.ptArray = ("   0.000 100.000   5.000  98.000\n".data).take 16 ::
        ((sortPoints exDf).filter (keyP exRow)).map pairFmt ∧
      List.Pairwise (fun p q : SurveyPoint => p.meas ≤ q.meas)
        ((sortPoints exDf).filter (keyP exRow))) ∧
    (∃ st', stepLine [] [] exDocFlush 1 exMannLine exStFlush =
        Except.ok st' ∧
      stripNL (flushPts (exStFlush.ptArray ++
          [takeLast 17 "  10.000  95.000\n".data])).flatten =
        "   0.000 100.000".data ++ (["   2.000   9.000".data] :
          List (List Char)).flatten ++
          (takeLast 17 "  10.000  95.000\n".data).dropLast) :=
  ⟨c7_order_preservation.1 exDf exDocHeader 1 exHeaderLine exStHeader exRow _
      (by decide) rfl rfl rfl rfl rfl rfl rfl rfl,
   c7_order_preservation.2 [] [] exDocFlush 1 exMannLine
      "  10.000  95.000\n".data "   0.000 100.000".data
      ["   2.000   9.000".data] exStFlush (by decide) rfl rfl rfl rfl rfl rfl
      rfl rfl (by decide) (by decide) (by decide) rfl (by decide)⟩

/-- Witness for C9 at the fixtures. -/
theorem c9_trailing_anchor_witness :
    ∃ st' full leftover,
      stepLine [] [] exDocFlush 1 exMannLine exStFlush = Except.ok st' ∧
      st'.ptArray = exStFlush.ptArray ++
        [takeLast 17 "  10.000  95.000\n".data] ∧
      (takeLast 17 "  10.000  95.000\n".data).length = 17 ∧
      (takeLast 17 "  10.000  95.000\n".data).getLast? = some '\n' ∧
      flushPts (exStFlush.ptArray ++ [takeLast 17 "  10.000  95.000\n".data]) =
        full ++ [leftover ++ takeLast 17 "  10.000  95.000\n".data] ∧
      (∀ c ∈ full, ∃ w, c = w ++ ['\n'] ∧ w.length = 80 ∧ '\n' ∉ w) ∧
      st'.out = (exStFlush.out ++ (full ++ [leftover ++
        takeLast 17 "  10.000  95.000\n".data])) ++ [exMannLine] :=
  c9_trailing_anchor_carried_newline [] [] exDocFlush 1 exMannLine
    "  10.000  95.000\n".data exStFlush (by decide) rfl rfl rfl rfl rfl rfl
    (by decide) (by decide) rfl
